import Mathlib

/-!
Shallow embedding of `statesaver.py` (classes `Looper`, `PlayQueue`, `FilePos`
and the free function `rewind`), together with theorems settling the claims
about its checkpoint-and-resume behaviour.

Modelling conventions:
* Python values that can appear in states and item streams are modelled by
  `Val`; `Val.vblob` stands for a value that `json.dumps` rejects with a
  `TypeError` (e.g. a `set`), while `pickle` accepts it.
* A text checkpoint file is modelled as its list of physical lines (`Line`);
  `Line.recVal v` / `Line.recDict d` is one compact JSON record on one line,
  `Line.blank` is an empty line (which `json.loads` rejects).  A pickle
  checkpoint is `FileData.blob aux rem`, one opaque blob holding the state
  mapping `aux` with the remaining items `rem` attached under `"remaining"`
  (the Python code pickles the live iterator object; for the iterators
  arising here the pickled blob contains exactly the remaining items).
* The runtime iterator held in `self.iterable` is `Iter`: a list iterator
  over an in-memory sequence, the lazy `map(json.loads, read_cache)` over
  the checkpoint's item lines (decoding failures surface on `next`), or an
  `itertools.chain((item,), rest)`.
* Lazy file reads are modelled as a snapshot of the lines present when the
  handle was opened; no run modelled here writes the file while it is still
  being read.
-/

namespace Statesaver

/-- Python values appearing in checkpoint states and item streams.
`vblob` models a value `json.dumps` cannot serialize (raises `TypeError`). -/
inductive Val where
  | vnat : Nat → Val
  | vstr : String → Val
  | vblob : Nat → Val
deriving DecidableEq, Repr

/-- A checkpoint state mapping (Python `dict` in insertion order). -/
abbrev StateDict := List (String × Val)

/-- `d[k]` lookup on a state mapping. -/
def sdGet (d : StateDict) (k : String) : Option Val :=
  match d with
  | [] => none
  | (k', v) :: rest => if k' = k then some v else sdGet rest k

/-- `d[k] = v` on a state mapping: replace in place, else append (dict
insertion-order semantics). -/
def sdSet (d : StateDict) (k : String) (v : Val) : StateDict :=
  match d with
  | [] => [(k, v)]
  | (k', v') :: rest => if k' = k then (k', v) :: rest else (k', v') :: sdSet rest k v

/-- `del d[k]` on a state mapping (keys are unique in a dict). -/
def sdErase (d : StateDict) (k : String) : StateDict :=
  match d with
  | [] => []
  | (k', v') :: rest => if k' = k then rest else (k', v') :: sdErase rest k

/-- Whether `json.dumps` accepts the value. -/
def serializable : Val → Bool
  | .vnat _ => true
  | .vstr _ => true
  | .vblob _ => false

/-- One physical line of a text checkpoint file. -/
inductive Line where
  | recVal : Val → Line
  | recDict : StateDict → Line
  | blank : Line
deriving DecidableEq, Repr

/-- Content of the file at the checkpoint path. -/
inductive FileData where
  | text : List Line → FileData
  | blob : StateDict → List Val → FileData
deriving DecidableEq, Repr

/-- The Python exceptions the modelled code can raise. -/
inductive PyErr where
  | typeError
  | keyError
  | jsonDecodeError
  | unpicklingError
deriving DecidableEq, Repr

/-- `json.dumps` of one item (`TypeError` → `none`). -/
def dumpVal (v : Val) : Option Line :=
  if serializable v then some (.recVal v) else none

/-- `json.loads` of one line read back as an item.  A `recDict` line would
decode to a mapping; no run modelled here has one among its item lines, and
its decoding is not used by any theorem. -/
def loadVal : Line → Option Val
  | .recVal v => some v
  | .recDict _ => none
  | .blank => none

/-- `json.dumps` of the state mapping (first line of a safe checkpoint). -/
def dumpDict (d : StateDict) : Option Line :=
  if d.all (fun p => serializable p.2) then some (.recDict d) else none

/-- The runtime iterator stored in `self.iterable`. -/
inductive Iter where
  | ofList : List Val → Iter
  | ofLines : List Line → Iter
  | chainOne : Val → Iter → Iter
deriving DecidableEq, Repr

/-- Size measure for recursion over `Iter`. -/
def Iter.size : Iter → Nat
  | .ofList vs => vs.length + 1
  | .ofLines ls => ls.length + 1
  | .chainOne _ it => it.size + 1

/-- Pull at most `k` items from the iterator (the consumer's `for` loop body
running `k` times before a `break`).  Returns the items handed to the
consumer, the exception (if one was raised by the lazy decoding) and the
iterator's rest. -/
def pullNP (it : Iter) (k : Nat) : List Val × Option PyErr × Iter :=
  match k, it with
  | 0, it => ([], none, it)
  | _ + 1, .ofList [] => ([], none, .ofList [])
  | k + 1, .ofList (v :: vs) =>
    let (ys, e, r) := pullNP (.ofList vs) k
    (v :: ys, e, r)
  | _ + 1, .ofLines [] => ([], none, .ofLines [])
  | k + 1, .ofLines (l :: ls) =>
    match loadVal l with
    | none => ([], some .jsonDecodeError, .ofLines ls)
    | some v =>
      let (ys, e, r) := pullNP (.ofLines ls) k
      (v :: ys, e, r)
  | k + 1, .chainOne v it =>
    let (ys, e, r) := pullNP it k
    (v :: ys, e, r)

/-- Decode a lazy line stream to exhaustion: items decoded so far, the
exception (if a line failed to decode) and the lines after the failure. -/
def decodeAllP : List Line → List Val × Option PyErr × List Line
  | [] => ([], none, [])
  | l :: ls =>
    match loadVal l with
    | none => ([], some .jsonDecodeError, ls)
    | some v =>
      let (ys, e, r) := decodeAllP ls
      (v :: ys, e, r)

/-- Drain the iterator to exhaustion (the consumer's `for` loop running to
the end).  Returns items received, the exception (if the lazy decoding
raised mid-way) and the rest after the raising element. -/
def drainAllP : Iter → List Val × Option PyErr × Iter
  | .ofList vs => (vs, none, .ofList [])
  | .ofLines ls =>
    let (ys, e, r) := decodeAllP ls
    (ys, e, .ofLines r)
  | .chainOne v it =>
    let (ys, e, r) := drainAllP it
    (v :: ys, e, r)

/-- `json.dumps` each element of an in-memory list in order, stopping at the
first unserializable one. -/
def dumpVals : List Val → Except PyErr (List Line)
  | [] => .ok []
  | v :: vs =>
    match dumpVal v with
    | none => .error .typeError
    | some l => (dumpVals vs).map (l :: ·)

/-- Decode then re-encode each line of a lazy line stream, stopping at the
first decoding or serialization failure. -/
def redumpLines : List Line → Except PyErr (List Line)
  | [] => .ok []
  | l :: ls =>
    match loadVal l with
    | none => .error .jsonDecodeError
    | some v =>
      match dumpVal v with
      | none => .error .typeError
      | some l' => (redumpLines ls).map (l' :: ·)

/-- The argument unpacking `*(dump(i) for i in self.iterable)` in
`safe_dump`: draw every item and `json.dumps` it; the first exception
(decoding or serialization) propagates before anything is printed. -/
def dumpIter : Iter → Except PyErr (List Line)
  | .ofList vs => dumpVals vs
  | .ofLines ls => redumpLines ls
  | .chainOne v it =>
    match dumpVal v with
    | none => .error .typeError
    | some l => (dumpIter it).map (l :: ·)

/-- The in-memory state of a constructed `Looper` (or `PlayQueue`).
`aux` is the state mapping minus the `"remaining"` key, `rem` is the value
stored under `"remaining"` (if any), `rcRef` is whether `self.read_cache`
still refers to a live handle, and `openedRead` records that `prep_state`
opened a read handle on the checkpoint. -/
structure LooperS where
  aux : StateDict
  rem : Option Iter
  iterable : Iter
  safe : Bool
  rcRef : Bool
  openedRead : Bool
deriving DecidableEq, Repr

/-- `Looper.__init__` (including `prep_state`): load the checkpoint if the
path exists, then select the iterable by the `cache_first` rule.  Note the
slip in the source: `self.read_cache = None` runs after `prep_state` already
stored the open handle there, so `rcRef` is always `false` on success. -/
def looperNew (file : Option FileData) (fresh : Option (List Val))
    (cacheFirst : Bool) (safe : Bool) : Except PyErr LooperS :=
  let prep : Except PyErr (StateDict × Option Iter × Bool) :=
    match file with
    | none => .ok ([], none, false)
    | some (.text ls) =>
      if safe then
        -- read_cache opened; first line loaded eagerly, rest exposed lazily
        match ls with
        | [] => .error .jsonDecodeError          -- json.loads("") fails
        | hdr :: rest =>
          match hdr with
          | .recDict d => .ok (sdErase d "remaining", some (.ofLines rest), true)
          | .recVal _ => .error .typeError        -- state is not a mapping
          | .blank => .error .jsonDecodeError
      else .error .unpicklingError                -- pickle.load on JSON text
    | some (.blob a r) =>
      if safe then .error .jsonDecodeError        -- json.loads on pickle bytes
      else .ok (sdErase a "remaining", some (.ofList r), false)
  match prep with
  | .error e => .error e
  | .ok (aux, rem, opened) =>
    let sel : Except PyErr Iter :=
      if cacheFirst then
        match rem with
        | some r => .ok r
        | none =>
          match fresh with
          | some vs => .ok (.ofList vs)
          | none => .error .typeError             -- iter(None)
      else
        match fresh with
        | some vs => .ok (.ofList vs)
        | none =>
          match rem with
          | some r => .ok r
          | none => .error .keyError              -- self.state['remaining']
    match sel with
    | .error e => .error e
    | .ok it =>
      .ok { aux := aux, rem := rem, iterable := it, safe := safe,
            rcRef := false, openedRead := opened }

/-- Result of a context-manager exit: the file left at the checkpoint path,
the exception raised by the exit itself (if any), and how many times
`read_cache.close()` was called. -/
structure ExitOut where
  file : Option FileData
  err : Option PyErr
  closes : Nat
deriving DecidableEq, Repr

/-- `Looper.safe_dump`: close `read_cache` if it is truthy, drop
`"remaining"` from the state, open the checkpoint path with mode `'w'`
(truncating it in place), print the state as the first line, then print all
remaining items joined by newlines (a single blank line when there are no
items, because `print()` with no arguments still writes its line end). -/
def safeDump (L : LooperS) : ExitOut :=
  let closes := if L.rcRef then 1 else 0
  match dumpDict L.aux with
  | none => ⟨some (.text []), some .typeError, closes⟩
  | some hdr =>
    match dumpIter L.iterable with
    | .error e => ⟨some (.text [hdr]), some e, closes⟩
    | .ok [] => ⟨some (.text [hdr, .blank]), none, closes⟩
    | .ok ls => ⟨some (.text (hdr :: ls)), none, closes⟩

/-- `Looper.unsafe_dump`: attach the iterator under `"remaining"` and pickle
the whole state in one write (mode `'wb'`).  The pickled iterator carries
exactly its remaining items; a decoding failure while pickling is modelled
as the error with nothing durable written. -/
def blobDump (L : LooperS) : ExitOut :=
  match drainAllP L.iterable with
  | (vs, none, _) => ⟨some (.blob L.aux vs), none, 0⟩
  | (_, some e, _) => ⟨some (.text []), some e, 0⟩

/-- `Looper.__exit__`: on an exception dump by the active strategy, on a
clean exit remove the checkpoint file if it exists. -/
def looperExit (L : LooperS) (file : Option FileData) (interrupted : Bool) :
    ExitOut :=
  if interrupted then
    if L.safe then safeDump L else blobDump L
  else
    ⟨none, none, 0⟩

/-- `PlayQueue.__exit__`: unconditionally `pop('current')` (raising
`KeyError` when no item was ever handed out, in which case the base exit
never runs and the file is untouched), chain the popped item back onto the
iterable, then run `Looper.__exit__`. -/
def pqExit (L : LooperS) (file : Option FileData) (interrupted : Bool) :
    ExitOut :=
  match sdGet L.aux "current" with
  | none => ⟨file, some .keyError, 0⟩
  | some v =>
      looperExit
        { L with aux := sdErase L.aux "current",
                 iterable := .chainOne v L.iterable }
        file interrupted

/-- Outcome of one whole `with`-scoped run: items the consumer received, the
exception that escaped the scope (if any), the file left at the checkpoint
path, and how many `read_cache.close()` calls happened. -/
structure RunOut where
  yielded : List Val
  err : Option PyErr
  file : Option FileData
  closes : Nat
deriving DecidableEq, Repr

/-- An exception raised inside `__exit__` replaces the in-flight one. -/
def combineErr (exitErr pullErr : Option PyErr) : Option PyErr :=
  match exitErr with
  | some e => some e
  | none => pullErr

/-- Construct a `Looper`, let the consumer take `k` items, then leave the
scope abnormally (a `break` or an error — both reach `__exit__` with an
exception set, since closing the driving generator raises `GeneratorExit`
inside the `with` block). -/
def looperInterruptAfter (file : Option FileData) (fresh : Option (List Val))
    (cacheFirst : Bool) (safe : Bool) (k : Nat) : RunOut :=
  match looperNew file fresh cacheFirst safe with
  | .error e => ⟨[], some e, file, 0⟩
  | .ok L =>
    let (ys, e, rest) := pullNP L.iterable k
    let out := looperExit { L with iterable := rest } file true
    ⟨ys, combineErr out.err e, out.file, out.closes⟩

/-- Construct a `Looper` and let the consumer iterate to the end: a clean
exhaustion exits the scope cleanly, while an exception raised by the lazy
decoding unwinds into an interrupted exit. -/
def looperDrainRun (file : Option FileData) (fresh : Option (List Val))
    (cacheFirst : Bool) (safe : Bool) : RunOut :=
  match looperNew file fresh cacheFirst safe with
  | .error e => ⟨[], some e, file, 0⟩
  | .ok L =>
    let (ys, e, rest) := drainAllP L.iterable
    match e with
    | none =>
      let out := looperExit { L with iterable := rest } file false
      ⟨ys, out.err, out.file, out.closes⟩
    | some e' =>
      let out := looperExit { L with iterable := rest } file true
      ⟨ys, combineErr out.err (some e'), out.file, out.closes⟩

/-- The round trip of claim C1: interrupt a fresh safe run after `k` items,
then resume from the written checkpoint (`cache_first = true`, no fresh
sequence) and iterate to the end. -/
def looperRoundTrip (S : List Val) (k : Nat) : RunOut :=
  let first := looperInterruptAfter none (some S) true true k
  looperDrainRun first.file none true true

/-- `PlayQueue`'s consumer loop taking `k` items: each item is stored under
the transient `"current"` key before being handed out. -/
def pqPullNP (aux : StateDict) (it : Iter) (k : Nat) :
    List Val × StateDict × Option PyErr × Iter :=
  match k, it with
  | 0, it => ([], aux, none, it)
  | _ + 1, .ofList [] => ([], aux, none, .ofList [])
  | k + 1, .ofList (v :: vs) =>
    let (ys, a, e, r) := pqPullNP (sdSet aux "current" v) (.ofList vs) k
    (v :: ys, a, e, r)
  | _ + 1, .ofLines [] => ([], aux, none, .ofLines [])
  | k + 1, .ofLines (l :: ls) =>
    match loadVal l with
    | none => ([], aux, some .jsonDecodeError, .ofLines ls)
    | some v =>
      let (ys, a, e, r) := pqPullNP (sdSet aux "current" v) (.ofLines ls) k
      (v :: ys, a, e, r)
  | k + 1, .chainOne v it =>
    let (ys, a, e, r) := pqPullNP (sdSet aux "current" v) it k
    (v :: ys, a, e, r)

/-- `PlayQueue`'s consumer loop draining an in-memory list, recording each
item under `"current"` before handing it out. -/
def pqListDrain : StateDict → List Val → List Val × StateDict
  | aux, [] => ([], aux)
  | aux, v :: vs =>
    let (ys, a) := pqListDrain (sdSet aux "current" v) vs
    (v :: ys, a)

/-- `PlayQueue`'s consumer loop draining a lazy line stream. -/
def pqDecodeAllP : StateDict → List Line →
    List Val × StateDict × Option PyErr × List Line
  | aux, [] => ([], aux, none, [])
  | aux, l :: ls =>
    match loadVal l with
    | none => ([], aux, some .jsonDecodeError, ls)
    | some v =>
      let (ys, a, e, r) := pqDecodeAllP (sdSet aux "current" v) ls
      (v :: ys, a, e, r)

/-- `PlayQueue`'s consumer loop running to exhaustion. -/
def pqDrainP : StateDict → Iter → List Val × StateDict × Option PyErr × Iter
  | aux, .ofList vs =>
    let (ys, a) := pqListDrain aux vs
    (ys, a, none, .ofList [])
  | aux, .ofLines ls =>
    let (ys, a, e, r) := pqDecodeAllP aux ls
    (ys, a, e, .ofLines r)
  | aux, .chainOne v it =>
    let (ys, a, e, r) := pqDrainP (sdSet aux "current" v) it
    (v :: ys, a, e, r)

/-- Construct a `PlayQueue` (same `__init__` as `Looper`), let the consumer
take `k` items, then leave the scope abnormally. -/
def pqInterruptAfter (file : Option FileData) (fresh : Option (List Val))
    (k : Nat) : RunOut :=
  match looperNew file fresh true true with
  | .error e => ⟨[], some e, file, 0⟩
  | .ok L =>
    let (ys, a, e, rest) := pqPullNP L.aux L.iterable k
    let out := pqExit { L with aux := a, iterable := rest } file true
    ⟨ys, combineErr out.err e, out.file, out.closes⟩

/-- Construct a `PlayQueue` and let the consumer iterate to the end. -/
def pqDrainRun (file : Option FileData) (fresh : Option (List Val)) : RunOut :=
  match looperNew file fresh true true with
  | .error e => ⟨[], some e, file, 0⟩
  | .ok L =>
    let (ys, a, e, rest) := pqDrainP L.aux L.iterable
    match e with
    | none =>
      let out := pqExit { L with aux := a, iterable := rest } file false
      ⟨ys, out.err, out.file, out.closes⟩
    | some e' =>
      let out := pqExit { L with aux := a, iterable := rest } file true
      ⟨ys, combineErr out.err (some e'), out.file, out.closes⟩

/-- `FilePos.__init__`: load the JSON checkpoint (a `JState` file is one
record holding the whole state mapping), then `seek(state.get('pos', 0))`.
Returns the offset the wrapped stream is seeked to. -/
def filePosSeek (cache : Option FileData) : Except PyErr Nat :=
  match cache with
  | none => .ok 0
  | some (.text [.recDict d]) =>
    match sdGet d "pos" with
    | some (.vnat p) => .ok p
    | some _ => .error .typeError        -- seek on a non-integer
    | none => .ok 0
  | some _ => .error .jsonDecodeError

/-- Result of `FilePos.__exit__`: the value written into the in-memory
state under `"pos"` (if any), the checkpoint file afterwards, and whether
the wrapped stream was closed. -/
structure FilePosExitOut where
  statePos : Option Nat
  cache : Option FileData
  streamClosed : Bool
deriving DecidableEq, Repr

/-- `FilePos.__exit__`: on an exception, store `file.tell()` in the
in-memory state and close the stream; on a clean exit do nothing.  In both
cases the checkpoint path is neither written nor erased (no `close()`/dump
and no `os.remove` occurs in this override). -/
def filePosExit (cache : Option FileData) (streamPos : Nat)
    (interrupted : Bool) : FilePosExitOut :=
  if interrupted then ⟨some streamPos, cache, true⟩
  else ⟨none, cache, false⟩

/-- `str.splitlines` restricted to the `'\n'` terminator (text-mode reads
translate platform line ends to `'\n'`): split at each terminator, with no
trailing empty segment when the text ends in a terminator. -/
def splitlines : List Char → List (List Char)
  | [] => []
  | c :: cs =>
    if c = '\n' then
      match cs with
      | [] => [[]]
      | _ :: _ => [] :: splitlines cs
    else
      match splitlines cs with
      | [] => [[c]]
      | l :: ls => (c :: l) :: ls

/-- The `while len(lines) < 2` loop of `rewind`, with explicit fuel (the
source has no bound, so non-termination is observable as `none` for every
fuel).  `content` is the whole stream, `pos = file.tell()` at entry.  Each
iteration grows `backtrack` by 100, clamps the window start at 0, seeks and
reads `backtrack` characters, and splits them into lines; on exit the
result is `pos - len(lines[-1]) - 1` (computed over `Int`, as in Python). -/
def rewindLoop (content : List Char) (pos : Nat) (backtrack : Nat)
    (fuel : Nat) : Option Int :=
  match fuel with
  | 0 => none
  | fuel + 1 =>
    let bt := backtrack + 100
    let byteno := if pos < bt then 0 else pos - bt
    let bt' := if pos < bt then pos else bt
    let window := (content.drop byteno).take bt'
    let lines := splitlines window
    if lines.length < 2 then rewindLoop content pos bt' fuel
    else some ((pos : Int) - ((lines.getLastD []).length : Int) - 1)

/-- `rewind(file)` returns: the loop, entered with `backtrack = 0`,
terminates with some result for some amount of fuel. -/
def rewindTerminates (content : List Char) (pos : Nat) : Prop :=
  ∃ fuel, (rewindLoop content pos 0 fuel).isSome = true

/-! Computation lemmas about the iterator model. -/

theorem pullNP_ofList (k : Nat) (vs : List Val) :
    pullNP (.ofList vs) k = (vs.take k, none, .ofList (vs.drop k)) := by
  induction k generalizing vs with
  | zero => simp [pullNP]
  | succ k ih =>
    cases vs with
    | nil => simp [pullNP]
    | cons v vs => simp [pullNP, ih]

theorem dumpVals_ok (vs : List Val) (h : ∀ v ∈ vs, serializable v = true) :
    dumpVals vs = .ok (vs.map Line.recVal) := by
  induction vs with
  | nil => simp [dumpVals]
  | cons v vs ih =>
    have hv : serializable v = true := h v (by simp)
    have hrest : ∀ w ∈ vs, serializable w = true := fun w hw => h w (by simp [hw])
    simp [dumpVals, dumpVal, hv, ih hrest, Except.map]

theorem dumpIter_ofList (vs : List Val) (h : ∀ v ∈ vs, serializable v = true) :
    dumpIter (.ofList vs) = .ok (vs.map Line.recVal) := by
  simp [dumpIter, dumpVals_ok vs h]

theorem decodeAllP_recVal (vs : List Val) :
    decodeAllP (vs.map Line.recVal) = (vs, none, []) := by
  induction vs with
  | nil => simp [decodeAllP]
  | cons v vs ih => simp [decodeAllP, loadVal, ih]

theorem drainAllP_recVal (vs : List Val) :
    drainAllP (.ofLines (vs.map Line.recVal)) = (vs, none, .ofLines []) := by
  simp [drainAllP, decodeAllP_recVal]

/-! Claim C1. -/

theorem looperInterruptAfter_fresh (S : List Val) (k : Nat)
    (hs : ∀ v ∈ S, serializable v = true) (hk : k < S.length) :
    looperInterruptAfter none (some S) true true k =
      ⟨S.take k, none, some (.text (.recDict [] :: (S.drop k).map Line.recVal)), 0⟩ := by
  have hne : S.drop k ≠ [] := by
    rw [Ne, List.drop_eq_nil_iff]
    omega
  obtain ⟨v0, vs0, hv0⟩ := List.exists_cons_of_ne_nil hne
  have hinit : looperNew none (some S) true true =
      .ok ⟨[], none, .ofList S, true, false, false⟩ := rfl
  have hdump : dumpIter (.ofList (S.drop k)) = .ok ((S.drop k).map Line.recVal) :=
    dumpIter_ofList _ (fun v hv => hs v (List.drop_subset k S hv))
  unfold looperInterruptAfter
  rw [hinit]
  dsimp only
  rw [pullNP_ofList]
  dsimp only [looperExit, safeDump]
  rw [hdump, hv0]
  dsimp only [List.map_cons]
  rfl

/-- C1: for a fresh safe run over a serializable sequence `S` interrupted
after `k` items, resuming from the written checkpoint with
`cache_first = true` yields exactly the suffix `S[k:]` — as amended: this
holds for `k < |S|`.  (At `k = |S|` the dump writes a blank line after the
header and the resumed iteration raises a JSON decode error; see the
counterexample.) -/
theorem c1_resume_suffix (S : List Val) (k : Nat)
    (hs : ∀ v ∈ S, serializable v = true) (hk : k < S.length) :
    (looperRoundTrip S k).yielded = S.drop k ∧
    (looperRoundTrip S k).err = none := by
  unfold looperRoundTrip
  rw [looperInterruptAfter_fresh S k hs hk]
  have hres : looperNew (some (.text (.recDict [] :: (S.drop k).map Line.recVal)))
      none true true =
      .ok ⟨[], some (.ofLines ((S.drop k).map Line.recVal)),
           .ofLines ((S.drop k).map Line.recVal), true, false, true⟩ := rfl
  unfold looperDrainRun
  dsimp only
  rw [hres]
  dsimp only
  rw [drainAllP_recVal]
  exact ⟨rfl, rfl⟩

/-- C1 witness: the amended theorem applied at `S = [3, 4, 5]`, `k = 1`. -/
theorem c1_resume_suffix_witness :
    ((∀ v ∈ [Val.vnat 3, Val.vnat 4, Val.vnat 5], serializable v = true) ∧
      1 < ([Val.vnat 3, Val.vnat 4, Val.vnat 5] : List Val).length) ∧
    ((looperRoundTrip [Val.vnat 3, Val.vnat 4, Val.vnat 5] 1).yielded
        = [Val.vnat 3, Val.vnat 4, Val.vnat 5].drop 1 ∧
      (looperRoundTrip [Val.vnat 3, Val.vnat 4, Val.vnat 5] 1).err = none) :=
  ⟨⟨by decide, by decide⟩, c1_resume_suffix _ 1 (by decide) (by decide)⟩

/-- C1 counterexample: at `k = n` (here `S = [0]`, `k = 1`) the resumed
iteration raises a JSON decode error on the blank line the interrupted dump
wrote, instead of cleanly yielding the empty suffix `S[1:]`. -/
theorem c1_blank_line_cex :
    (looperRoundTrip [Val.vnat 0] 1).err = some PyErr.jsonDecodeError ∧
    (looperRoundTrip [Val.vnat 0] 1).yielded = [] :=
  ⟨rfl, rfl⟩

/-! Claim C3. -/

/-- C3: the claim is right and the code is wrong (the spec explicitly
corrects this gap in section 7).  Saving does fail with the serialization
error (`TypeError`) when a remaining item is not JSON-representable, but
the write is done in place: `safe_dump` truncates the previously valid
checkpoint on open and leaves a half-written file holding only the header
line — the prior content `{} / 7` is destroyed rather than left unchanged. -/
theorem c3_halfwritten_header :
    (looperInterruptAfter (some (.text [.recDict [], .recVal (.vnat 7)]))
        (some [Val.vnat 0, Val.vblob 0]) false true 1).err
      = some PyErr.typeError ∧
    (looperInterruptAfter (some (.text [.recDict [], .recVal (.vnat 7)]))
        (some [Val.vnat 0, Val.vblob 0]) false true 1).file
      = some (.text [.recDict []]) ∧
    (looperInterruptAfter (some (.text [.recDict [], .recVal (.vnat 7)]))
        (some [Val.vnat 0, Val.vblob 0]) false true 1).file
      ≠ some (.text [.recDict [], .recVal (.vnat 7)]) := by
  refine ⟨rfl, rfl, ?_⟩
  decide

/-! Claim C6. -/

/-- C6 counterexample: after a full clean run over a valid checkpoint the
file is erased, but the subsequent construction with `cache_first = true`
and no fresh sequence does not start from an empty state — it raises a
`TypeError` (`iter(None)`) during `__init__`. -/
theorem c6_construct_cex :
    (looperDrainRun (some (.text [.recDict [], .recVal (.vnat 1)])) none
        true true).file = none ∧
    looperNew none none true true = Except.error PyErr.typeError :=
  ⟨rfl, rfl⟩

/-- C6 as amended: exhausting a resumed `Looper` fully removes the
checkpoint file with no error, and a subsequent construction over the now
missing checkpoint with `cache_first = true` and no fresh sequence loads an
empty state mapping but then fails with a `TypeError` from `iter(None)`. -/
theorem c6_exhaust_erases (vs : List Nat) :
    (looperDrainRun
        (some (.text (.recDict [] :: (vs.map Val.vnat).map Line.recVal)))
        none true true).file = none ∧
    (looperDrainRun
        (some (.text (.recDict [] :: (vs.map Val.vnat).map Line.recVal)))
        none true true).err = none ∧
    (looperDrainRun
        (some (.text (.recDict [] :: (vs.map Val.vnat).map Line.recVal)))
        none true true).yielded = vs.map Val.vnat ∧
    looperNew none none true true = Except.error PyErr.typeError := by
  have hres : looperNew
      (some (.text (.recDict [] :: (vs.map Val.vnat).map Line.recVal)))
      none true true =
      .ok ⟨[], some (.ofLines ((vs.map Val.vnat).map Line.recVal)),
           .ofLines ((vs.map Val.vnat).map Line.recVal), true, false, true⟩ := rfl
  unfold looperDrainRun
  rw [hres]
  dsimp only
  rw [drainAllP_recVal]
  exact ⟨rfl, rfl, rfl, rfl⟩

/-! Claim C8. -/

/-- C8: on interruption under the non-safe strategy the whole remaining
sequence (here, whatever suffix of `S` is left after `k` items, including
values `json` could not encode) is attached to the auxiliary state under
`"remaining"` and serialized as one pickle blob in a single write to the
checkpoint path, with no error. -/
theorem c8_blob_remaining (S : List Val) (k : Nat) :
    (looperInterruptAfter none (some S) true false k).file
      = some (.blob [] (S.drop k)) ∧
    (looperInterruptAfter none (some S) true false k).err = none := by
  have hinit : looperNew none (some S) true false =
      .ok ⟨[], none, .ofList S, false, false, false⟩ := rfl
  unfold looperInterruptAfter
  rw [hinit]
  dsimp only
  rw [pullNP_ofList]
  exact ⟨rfl, rfl⟩

/-! Claim C2. -/

theorem pqPullNP_cur (k : Nat) (l : List Val) (v : Val) (hk : k ≤ l.length) :
    pqPullNP [("current", v)] (.ofList l) k
      = (l.take k, [("current", (l.take k).getLastD v)], none,
         .ofList (l.drop k)) := by
  induction k generalizing l v with
  | zero => simp [pqPullNP]
  | succ k ih =>
    cases l with
    | nil => simp at hk
    | cons x xs =>
      have hx : sdSet [("current", v)] "current" x = [("current", x)] := rfl
      simp only [pqPullNP, hx, ih xs x (by simpa using hk), List.take_succ_cons,
        List.getLastD_cons, List.drop_succ_cons]

theorem pqPullNP_nil_aux (k : Nat) (l : List Val) (h1 : 1 ≤ k)
    (hk : k ≤ l.length) :
    pqPullNP [] (.ofList l) k
      = (l.take k, [("current", (l.take k).getLastD (Val.vnat 0))], none,
         .ofList (l.drop k)) := by
  cases k with
  | zero => omega
  | succ k =>
    cases l with
    | nil => simp at hk
    | cons x xs =>
      have hx : sdSet [] "current" x = [("current", x)] := rfl
      simp only [pqPullNP, hx, pqPullNP_cur k xs x (by simpa using hk),
        List.take_succ_cons, List.getLastD_cons, List.drop_succ_cons]

theorem pqDecodeAllP_cur (l : List Val) (v : Val) :
    pqDecodeAllP [("current", v)] (l.map Line.recVal)
      = (l, [("current", l.getLastD v)], none, []) := by
  induction l generalizing v with
  | nil => simp [pqDecodeAllP]
  | cons x xs ih =>
    have hx : sdSet [("current", v)] "current" x = [("current", x)] := rfl
    simp only [List.map_cons, pqDecodeAllP, loadVal, hx, ih x,
      List.getLastD_cons]

theorem take_getLastD (l : List Val) (k : Nat) (d : Val) (h1 : 1 ≤ k)
    (hk : k ≤ l.length) :
    (l.take k).getLastD d = l.getD (k - 1) d := by
  rw [List.getLastD_eq_getLast?, List.getD_eq_getElem?_getD,
    List.getLast?_eq_getElem?, List.length_take]
  have hmin : k ⊓ l.length = k := min_eq_left hk
  rw [hmin, List.getElem?_take, if_pos (by omega)]

theorem pqExit_interrupt (w : Val) (it : Iter) (rem : Option Iter)
    (opened : Bool) (file : Option FileData) (ls : List Line)
    (hser : serializable w = true) (hit : dumpIter it = .ok ls) :
    pqExit { aux := [("current", w)], rem := rem, iterable := it,
             safe := true, rcRef := false, openedRead := opened } file true
      = ⟨some (.text (Line.recDict [] :: Line.recVal w :: ls)), none, 0⟩ := by
  simp [pqExit, sdGet, sdErase, looperExit, safeDump, dumpIter, dumpVal,
    hser, hit, dumpDict, Except.map]

theorem pqInterruptAfter_fresh (S : List Val) (k : Nat)
    (hs : ∀ v ∈ S, serializable v = true) (h1 : 1 ≤ k) (hk : k ≤ S.length) :
    pqInterruptAfter none (some S) k =
      ⟨S.take k, none,
       some (.text (.recDict [] :: (S.drop (k - 1)).map Line.recVal)), 0⟩ := by
  have hinit : looperNew none (some S) true true =
      .ok ⟨[], none, .ofList S, true, false, false⟩ := rfl
  have hk1 : k - 1 < S.length := by omega
  have hw : (S.take k).getLastD (Val.vnat 0) = S[k - 1] := by
    rw [take_getLastD S k _ h1 hk, List.getD_eq_getElem?_getD,
      List.getElem?_eq_getElem hk1]
    rfl
  have hser : serializable ((S.take k).getLastD (Val.vnat 0)) = true := by
    rw [hw]; exact hs _ (List.getElem_mem hk1)
  have hdump : dumpIter (.ofList (S.drop k)) = .ok ((S.drop k).map Line.recVal) :=
    dumpIter_ofList _ (fun v hv => hs v (List.drop_subset k S hv))
  have hkk : k - 1 + 1 = k := by omega
  have hdrop : S.drop (k - 1) = (S.take k).getLastD (Val.vnat 0) :: S.drop k := by
    rw [hw, List.drop_eq_getElem_cons hk1, hkk]
  unfold pqInterruptAfter
  rw [hinit]
  dsimp only
  rw [pqPullNP_nil_aux k S h1 hk]
  dsimp only
  rw [pqExit_interrupt _ _ _ _ _ _ hser hdump]
  rw [hdrop, List.map_cons]
  rfl

theorem pqDrainRun_resume (R : List Val) (fresh : Option (List Val))
    (hR : R ≠ []) :
    pqDrainRun (some (.text (.recDict [] :: R.map Line.recVal))) fresh
      = ⟨R, none, none, 0⟩ := by
  have hinit : looperNew (some (.text (.recDict [] :: R.map Line.recVal)))
      fresh true true =
      .ok ⟨[], some (.ofLines (R.map Line.recVal)),
           .ofLines (R.map Line.recVal), true, false, true⟩ := by
    cases fresh <;> rfl
  obtain ⟨x, xs, rfl⟩ := List.exists_cons_of_ne_nil hR
  have hx : sdSet [] "current" x = [("current", x)] := rfl
  have hdrain : pqDrainP [] (.ofLines ((x :: xs).map Line.recVal))
      = (x :: xs, [("current", xs.getLastD x)], none, .ofLines []) := by
    simp only [pqDrainP, List.map_cons, pqDecodeAllP, loadVal, hx,
      pqDecodeAllP_cur xs x]
  unfold pqDrainRun
  rw [hinit]
  dsimp only
  rw [hdrain]
  rfl

/-- C2: for a fresh `PlayQueue` run over serializable `S` interrupted after
the consumer received `k` items (`1 ≤ k ≤ |S|`, so the in-flight item is
`S[k-1]`), the persisted remaining sequence is the in-flight item followed
by the unconsumed tail, i.e. exactly `S[k-1:]` (one record per line after
the header), and a second `PlayQueue` over the same path with
`cache_first = true` (a fresh copy of `S` supplied and ignored) yields
exactly `S[k-1:]` with no error and then erases the checkpoint. -/
theorem c2_requeue_replay (S : List Val) (k : Nat)
    (hs : ∀ v ∈ S, serializable v = true) (h1 : 1 ≤ k) (hk : k ≤ S.length) :
    (pqInterruptAfter none (some S) k).err = none ∧
    (pqInterruptAfter none (some S) k).file
      = some (.text (.recDict [] :: (S.drop (k - 1)).map Line.recVal)) ∧
    (pqDrainRun (some (.text (.recDict [] :: (S.drop (k - 1)).map Line.recVal)))
        (some S)).yielded = S.drop (k - 1) ∧
    (pqDrainRun (some (.text (.recDict [] :: (S.drop (k - 1)).map Line.recVal)))
        (some S)).err = none ∧
    (pqDrainRun (some (.text (.recDict [] :: (S.drop (k - 1)).map Line.recVal)))
        (some S)).file = none := by
  have hR : S.drop (k - 1) ≠ [] := by
    rw [Ne, List.drop_eq_nil_iff]
    omega
  rw [pqInterruptAfter_fresh S k hs h1 hk, pqDrainRun_resume _ (some S) hR]
  exact ⟨rfl, rfl, rfl, rfl, rfl⟩

/-- C2 witness: the theorem applied to the concrete scenario of the spec —
fresh sequence `0..9`, consumer breaks immediately after receiving `5`
(`k = 6`): persisted remaining is `[5, 6, 7, 8, 9]`, the second run yields
exactly `5, 6, 7, 8, 9` and erases the checkpoint. -/
theorem c2_requeue_replay_witness :
    ((∀ v ∈ (List.range 10).map Val.vnat, serializable v = true) ∧
      1 ≤ 6 ∧ 6 ≤ ((List.range 10).map Val.vnat).length) ∧
    ((pqInterruptAfter none (some ((List.range 10).map Val.vnat)) 6).err = none ∧
      (pqInterruptAfter none (some ((List.range 10).map Val.vnat)) 6).file
        = some (.text (.recDict [] ::
            (((List.range 10).map Val.vnat).drop (6 - 1)).map Line.recVal)) ∧
      (pqDrainRun (some (.text (.recDict [] ::
            (((List.range 10).map Val.vnat).drop (6 - 1)).map Line.recVal)))
          (some ((List.range 10).map Val.vnat))).yielded
        = ((List.range 10).map Val.vnat).drop (6 - 1) ∧
      (pqDrainRun (some (.text (.recDict [] ::
            (((List.range 10).map Val.vnat).drop (6 - 1)).map Line.recVal)))
          (some ((List.range 10).map Val.vnat))).err = none ∧
      (pqDrainRun (some (.text (.recDict [] ::
            (((List.range 10).map Val.vnat).drop (6 - 1)).map Line.recVal)))
          (some ((List.range 10).map Val.vnat))).file = none) :=
  ⟨⟨by decide, by decide, by decide⟩,
    c2_requeue_replay _ 6 (by decide) (by decide) (by decide)⟩

/-! Claim C7. -/

/-- C7: the claim is wrong about persistence — `FilePos.__exit__` only
updates the in-memory state and closes the stream; it never writes the
position to the checkpoint path (no dump) and never erases the checkpoint
on clean completion.  Consequently a tracker later constructed over the
same (still absent) path seeks offset `0`, not the recorded offset `7`. -/
theorem c7_pos_not_persisted :
    (∀ (cache : Option FileData) (p : Nat) (i : Bool),
        (filePosExit cache p i).cache = cache) ∧
    (filePosExit none 7 true).statePos = some 7 ∧
    (filePosExit none 7 true).streamClosed = true ∧
    (filePosExit (some (.text [.recDict [("pos", .vnat 3)]])) 9 false).cache
      = some (.text [.recDict [("pos", .vnat 3)]]) ∧
    filePosSeek (filePosExit none 7 true).cache = Except.ok 0 := by
  refine ⟨?_, rfl, rfl, rfl, rfl⟩
  intro cache p i
  cases i <;> rfl

/-! Claim C9. -/

/-- C9: the claim is right and the code is wrong — no exit path ever closes
the lazily-reading handle.  `Looper.__init__` resets `self.read_cache` to
`None` after `prep_state` stored the open handle there, so the
`read_cache.close()` in `safe_dump` is dead code: every constructed looper
has `rcRef = false`, every exit performs zero closes, yet a safe resume did
open a read handle (`openedRead = true`). -/
theorem c9_handle_never_closed :
    (∀ (f : Option FileData) (fr : Option (List Val)) (cf s : Bool)
        (L : LooperS), looperNew f fr cf s = Except.ok L → L.rcRef = false) ∧
    (∀ (L : LooperS) (f : Option FileData) (i : Bool),
        L.rcRef = false → (looperExit L f i).closes = 0) ∧
    (∃ L, looperNew (some (.text [.recDict [], .recVal (.vnat 1)])) none
        true true = Except.ok L ∧ L.openedRead = true) := by
  refine ⟨?_, ?_, ?_⟩
  · intro f fr cf s L h
    unfold looperNew at h
    dsimp only at h
    repeat' split at h
    all_goals first
      | (injection h with h; subst h; rfl)
      | injection h
  · intro L f i h
    cases i with
    | false => rfl
    | true =>
      show (if L.safe then safeDump L else blobDump L).closes = 0
      cases hsafe : L.safe
      · show (blobDump L).closes = 0
        unfold blobDump
        split <;> rfl
      · show (safeDump L).closes = 0
        cases hd : dumpDict L.aux with
        | none => simp [safeDump, hd, h]
        | some hdr =>
          cases hi : dumpIter L.iterable with
          | error e => simp [safeDump, hd, hi, h]
          | ok ls => cases ls <;> simp [safeDump, hd, hi, h]
  · exact ⟨_, rfl, rfl⟩

/-- C9 witness: the first two conjuncts applied at a concrete construction
and a concrete exit. -/
theorem c9_handle_never_closed_witness :
    ({ aux := [], rem := none, iterable := Iter.ofList [], safe := true,
       rcRef := false, openedRead := false } : LooperS).rcRef = false ∧
    (looperExit
        { aux := [], rem := none, iterable := Iter.ofList [], safe := true,
          rcRef := false, openedRead := false } none true).closes = 0 :=
  ⟨c9_handle_never_closed.1 none (some []) true true _ rfl,
   c9_handle_never_closed.2.1 _ none true rfl⟩

/-! Claim C10. -/

/-- C10: when the scope exits before any item was handed to the consumer
(an empty fresh source, or a checkpoint whose remaining stream is empty),
`PlayQueue.__exit__` pops the never-set `"current"` slot and raises
`KeyError`; the checkpoint is neither erased nor persisted (the file at the
path is exactly what it was before the run). -/
theorem c10_pop_keyerror :
    (pqDrainRun none (some [])).err = some PyErr.keyError ∧
    (pqDrainRun none (some [])).file = none ∧
    (pqDrainRun none (some [])).yielded = [] ∧
    (pqDrainRun (some (.text [.recDict []])) none).err = some PyErr.keyError ∧
    (pqDrainRun (some (.text [.recDict []])) none).file
      = some (.text [.recDict []]) :=
  ⟨rfl, rfl, rfl, rfl, rfl⟩

/-! Claims C4 and C5: structure of `splitlines` and the `rewind` loop. -/

theorem getLast?_cons_of_ne_nil {α : Type} (a : α) {l : List α} (h : l ≠ []) :
    (a :: l).getLast? = l.getLast? := by
  cases l with
  | nil => exact absurd rfl h
  | cons b bs => exact List.getLast?_cons_cons

theorem splitlines_ne_nil {w : List Char} (h : w ≠ []) : splitlines w ≠ [] := by
  cases w with
  | nil => exact absurd rfl h
  | cons c cs =>
    by_cases hc : c = '\n'
    · subst hc
      cases cs <;> simp [splitlines]
    · simp only [splitlines, if_neg hc]
      cases splitlines cs <;> simp

/-- Structure of the last element of `splitlines`: the text decomposes as a
prefix, the last line (never containing a terminator) and possibly one final
terminator; when there are at least two lines the prefix is nonempty and
ends in a terminator. -/
theorem splitlines_decomp (w : List Char) (hw : w ≠ []) :
    ∃ pre lst, (splitlines w).getLast? = some lst ∧ '\n' ∉ lst ∧
      (w = pre ++ lst ∨ w = pre ++ (lst ++ ['\n'])) ∧
      ((pre = [] ∧ (splitlines w).length = 1) ∨
        (pre.getLast? = some '\n' ∧ 2 ≤ (splitlines w).length)) := by
  induction w with
  | nil => exact absurd rfl hw
  | cons c cs ih =>
    by_cases hc : c = '\n'
    · subst hc
      cases cs with
      | nil =>
        refine ⟨[], [], ?_, ?_, ?_, ?_⟩
        · simp [splitlines]
        · simp
        · right; rfl
        · left; exact ⟨rfl, by simp [splitlines]⟩
      | cons d ds =>
        obtain ⟨pre, lst, hlast, hnl, hsplit, hbr⟩ := ih (by simp)
        have hne : splitlines (d :: ds) ≠ [] := splitlines_ne_nil (by simp)
        have heq : splitlines ('\n' :: d :: ds) = [] :: splitlines (d :: ds) := by
          simp [splitlines]
        refine ⟨'\n' :: pre, lst, ?_, hnl, ?_, ?_⟩
        · rw [heq, getLast?_cons_of_ne_nil _ hne]
          exact hlast
        · rcases hsplit with h | h
          · left; rw [h]; rfl
          · right; rw [h]; rfl
        · right
          refine ⟨?_, ?_⟩
          · cases hp : pre with
            | nil => rfl
            | cons p ps =>
              rw [getLast?_cons_of_ne_nil _ (by simp)]
              rcases hbr with ⟨hb, _⟩ | ⟨hb, _⟩
              · rw [hp] at hb; exact absurd hb (by simp)
              · rw [← hp]; exact hb
          · rw [heq]
            have := List.length_pos.mpr hne
            simp only [List.length_cons]
            omega
    · cases hcs : cs with
      | nil =>
        subst hcs
        refine ⟨[], [c], ?_, ?_, Or.inl rfl, Or.inl ⟨rfl, ?_⟩⟩
        · simp [splitlines, hc]
        · intro hm
          rcases List.mem_cons.mp hm with h | h
          · exact hc h.symm
          · exact List.not_mem_nil _ h
        · simp [splitlines, hc]
      | cons d ds =>
        subst hcs
        obtain ⟨pre, lst, hlast, hnl, hsplit, hbr⟩ := ih (by simp)
        obtain ⟨l, ls, hls⟩ : ∃ l ls, splitlines (d :: ds) = l :: ls := by
          cases h2 : splitlines (d :: ds) with
          | nil => exact absurd h2 (splitlines_ne_nil (by simp))
          | cons l ls => exact ⟨l, ls, rfl⟩
        have heq : splitlines (c :: d :: ds) = (c :: l) :: ls := by
          rw [splitlines.eq_def]
          dsimp only
          rw [if_neg hc, hls]
        cases ls with
        | nil =>
          have hlast' : lst = l := by
            rw [hls] at hlast
            simpa using hlast.symm
          subst hlast'
          rcases hbr with ⟨hb, _⟩ | ⟨_, hb2⟩
          · subst hb
            refine ⟨[], c :: lst, ?_, ?_, ?_, Or.inl ⟨rfl, ?_⟩⟩
            · rw [heq]; rfl
            · intro hm
              rcases List.mem_cons.mp hm with h | h
              · exact hc h.symm
              · exact hnl h
            · rcases hsplit with h | h
              · left; rw [h]; rfl
              · right; rw [h]; rfl
            · rw [heq]; rfl
          · rw [hls] at hb2; simp at hb2
        | cons e es =>
          rcases hbr with ⟨_, hb1⟩ | ⟨hg, _⟩
          · rw [hls] at hb1; simp at hb1
          · have hpre : pre ≠ [] := by
              intro h0; rw [h0] at hg; simp at hg
            refine ⟨c :: pre, lst, ?_, hnl, ?_, Or.inr ⟨?_, ?_⟩⟩
            · rw [heq, List.getLast?_cons_cons]
              rw [hls, List.getLast?_cons_cons] at hlast
              exact hlast
            · rcases hsplit with h | h
              · left; rw [h]; rfl
              · right; rw [h]; rfl
            · rw [getLast?_cons_of_ne_nil _ hpre]; exact hg
            · rw [heq]; simp

theorem append_getD_last (pre t : List Char) (hg : pre.getLast? = some '\n') :
    (pre ++ t).getD (pre.length - 1) ' ' = '\n' := by
  have hpre : pre ≠ [] := by intro h; rw [h] at hg; simp at hg
  have hP : pre.length - 1 < pre.length := by
    have := List.length_pos.mpr hpre
    omega
  rw [List.getD_eq_getElem?_getD, List.getElem?_append_left hP,
    ← List.getLast?_eq_getElem?, hg]
  rfl

/-- What holds when the `rewind` loop exits: the window it examined is
`content[byteno : pos)`, and the returned offset points at the terminator
preceding the last window line (or just after one, when the window ends in
a terminator). -/
theorem rewind_exit_boundary (content : List Char) (pos byteno bt' : Nat)
    (o : Int) (hpos : pos ≤ content.length) (hby : byteno + bt' = pos)
    (h2 : ¬ (splitlines ((content.drop byteno).take bt')).length < 2)
    (ho : (pos : Int)
        - (((splitlines ((content.drop byteno).take bt')).getLastD []).length : Int)
        - 1 = o) :
    0 ≤ o ∧ o ≤ (pos : Int) ∧
      (content.getD o.toNat ' ' = '\n' ∨
        (1 ≤ o ∧ content.getD (o.toNat - 1) ' ' = '\n')) := by
  set w := (content.drop byteno).take bt' with hwdef
  have hwne : w ≠ [] := by
    intro h0
    rw [h0] at h2
    simp [splitlines] at h2
  have hwlen : w.length = bt' := by
    rw [hwdef, List.length_take, List.length_drop, Nat.min_def]
    split <;> omega
  have hidx : ∀ i, i < bt' → w.getD i ' ' = content.getD (byteno + i) ' ' := by
    intro i hi
    rw [hwdef, List.getD_eq_getElem?_getD, List.getD_eq_getElem?_getD,
      List.getElem?_take, if_pos hi, List.getElem?_drop]
  obtain ⟨pre, lst, hlast, hnl, hsplit, hbr⟩ := splitlines_decomp w hwne
  have hlen2 : 2 ≤ (splitlines w).length := by omega
  have hgl : pre.getLast? = some '\n' := by
    rcases hbr with ⟨_, hb⟩ | ⟨hb, _⟩
    · omega
    · exact hb
  have hpre : pre ≠ [] := by intro h0; rw [h0] at hgl; simp at hgl
  have hpreP : 1 ≤ pre.length := by
    have := List.length_pos.mpr hpre
    omega
  have hgetD : (splitlines w).getLastD [] = lst := by
    rw [List.getLastD_eq_getLast?, hlast]
    rfl
  rw [hgetD] at ho
  rcases hsplit with hcase | hcase
  · have hPL : pre.length + lst.length = bt' := by
      rw [← hwlen, hcase, List.length_append]
    have hD : w.getD (pre.length - 1) ' ' = '\n' := by
      rw [hcase]; exact append_getD_last pre lst hgl
    have hone : content.getD (byteno + (pre.length - 1)) ' ' = '\n' := by
      rw [← hidx _ (by omega)]; exact hD
    have hto : o.toNat = byteno + (pre.length - 1) := by omega
    refine ⟨by omega, by omega, Or.inl ?_⟩
    rw [hto]; exact hone
  · have hPL : pre.length + lst.length + 1 = bt' := by
      rw [← hwlen, hcase]
      simp only [List.length_append, List.length_cons, List.length_nil]
      omega
    have hD : w.getD (pre.length - 1) ' ' = '\n' := by
      rw [hcase]; exact append_getD_last pre (lst ++ ['\n']) hgl
    have hone : content.getD (byteno + (pre.length - 1)) ' ' = '\n' := by
      rw [← hidx _ (by omega)]; exact hD
    have hto : o.toNat - 1 = byteno + (pre.length - 1) := by omega
    refine ⟨by omega, by omega, Or.inr ⟨by omega, ?_⟩⟩
    rw [hto]; exact hone

/-- C4 as amended: when the `rewind` loop returns an offset `o` for a
position `pos` within the stream, then `0 ≤ o ≤ pos` and either the byte AT
`o` is a line terminator (`pos` fell mid-line: the code lands on the
terminator itself, off by one from a line start) or `o ≥ 1` and the byte at
`o - 1` is a line terminator (`pos` sat just after a terminator). -/
theorem rewind_line_boundary (content : List Char) (pos backtrack fuel : Nat)
    (o : Int) (hpos : pos ≤ content.length)
    (h : rewindLoop content pos backtrack fuel = some o) :
    0 ≤ o ∧ o ≤ (pos : Int) ∧
      (content.getD o.toNat ' ' = '\n' ∨
        (1 ≤ o ∧ content.getD (o.toNat - 1) ' ' = '\n')) := by
  revert h
  induction fuel generalizing backtrack with
  | zero =>
    intro h
    exact absurd h (by simp [rewindLoop])
  | succ fuel ih =>
    intro h
    simp only [rewindLoop] at h
    by_cases hc : pos < backtrack + 100
    · simp only [if_pos hc] at h
      by_cases hlt : (splitlines ((content.drop 0).take pos)).length < 2
      · rw [if_pos hlt] at h
        exact ih pos h
      · rw [if_neg hlt] at h
        injection h with h
        exact rewind_exit_boundary content pos 0 pos o hpos (by omega) hlt h
    · simp only [if_neg hc] at h
      by_cases hlt : (splitlines ((content.drop (pos - (backtrack + 100))).take
          (backtrack + 100))).length < 2
      · rw [if_pos hlt] at h
        exact ih (backtrack + 100) h
      · rw [if_neg hlt] at h
        injection h with h
        exact rewind_exit_boundary content pos (pos - (backtrack + 100))
          (backtrack + 100) o hpos (by omega) hlt h

/-- C4 counterexample: for the stream `a\nb\nc` and `pos = 5` (mid-line),
`rewind` returns offset `3`, which is neither `0` nor preceded by a line
terminator (`content[2] = 'b'`): the returned offset is the position OF the
terminator, not a line boundary. -/
theorem c4_mid_line_cex :
    rewindLoop ("a\nb\nc".toList) 5 0 1 = some 3 ∧
    ¬((3 : Int) = 0 ∨
      ("a\nb\nc".toList).getD ((3 : Int).toNat - 1) ' ' = '\n') := by
  refine ⟨rfl, ?_⟩
  decide

/-- C4 witness: the amended theorem applied at the stream `a\nb\nc`,
`pos = 5`, where the loop returns `3`. -/
theorem rewind_line_boundary_witness :
    (5 ≤ ("a\nb\nc".toList).length ∧
      rewindLoop ("a\nb\nc".toList) 5 0 1 = some 3) ∧
    (0 ≤ (3 : Int) ∧ (3 : Int) ≤ ((5 : Nat) : Int) ∧
      (("a\nb\nc".toList).getD ((3 : Int)).toNat ' ' = '\n' ∨
        (1 ≤ (3 : Int) ∧
          ("a\nb\nc".toList).getD ((3 : Int).toNat - 1) ' ' = '\n'))) :=
  ⟨⟨by decide, rfl⟩,
    rewind_line_boundary ("a\nb\nc".toList) 5 0 1 3 (by decide) rfl⟩

/-- C5 counterexample: on a stream whose prefix before `pos` holds fewer
than two lines (here `hello`, no terminator at all, `pos = 5`), the loop
never exits: once the window is clamped to the whole prefix it repeats the
same split forever, so no amount of fuel produces a result. -/
theorem c5_rewind_no_newline_cex : ¬ rewindTerminates ("hello".toList) 5 := by
  rintro ⟨fuel, hf⟩
  have key5 : ∀ n, rewindLoop ("hello".toList) 5 5 n = none := by
    intro n
    induction n with
    | zero => rfl
    | succ n ihn =>
      rw [show rewindLoop ("hello".toList) 5 5 (n + 1)
          = rewindLoop ("hello".toList) 5 5 n from rfl, ihn]
  have key0 : rewindLoop ("hello".toList) 5 0 fuel = none := by
    cases fuel with
    | zero => rfl
    | succ n =>
      rw [show rewindLoop ("hello".toList) 5 0 (n + 1)
          = rewindLoop ("hello".toList) 5 5 n from rfl, key5 n]
  rw [key0] at hf
  simp at hf

theorem rewindLoop_isSome_of_lt (content : List Char) (pos : Nat)
    (h2 : 2 ≤ (splitlines (content.take pos)).length) :
    ∀ (k backtrack : Nat), pos < backtrack + 100 * (k + 1) →
      (rewindLoop content pos backtrack (k + 1)).isSome = true := by
  intro k
  induction k with
  | zero =>
    intro b hb
    have hc : pos < b + 100 := by omega
    simp only [rewindLoop, if_pos hc, List.drop_zero]
    rw [if_neg (by omega)]
    rfl
  | succ k ihk =>
    intro b hb
    by_cases hc : pos < b + 100
    · simp only [rewindLoop, if_pos hc, List.drop_zero]
      rw [if_neg (by omega)]
      rfl
    · simp only [rewindLoop, if_neg hc]
      by_cases hlt : (splitlines ((content.drop (pos - (b + 100))).take
          (b + 100))).length < 2
      · rw [if_pos hlt]
        exact ihk (b + 100) (by omega)
      · rw [if_neg hlt]
        rfl

/-- C5 as amended: the backward scan terminates precisely because the
window is clamped to the whole prefix — but only when that prefix splits
into at least two lines.  Under that condition some fuel makes the loop
return a result; streams with fewer than two lines before `pos` loop
forever (see the counterexample). -/
theorem rewind_terminates_of_two_lines (content : List Char) (pos : Nat)
    (h2 : 2 ≤ (splitlines (content.take pos)).length) :
    rewindTerminates content pos := by
  refine ⟨pos / 100 + 1, ?_⟩
  apply rewindLoop_isSome_of_lt content pos h2
  have hdm := Nat.div_add_mod pos 100
  have hm : pos % 100 < 100 := Nat.mod_lt _ (by omega)
  omega

/-- C5 witness: the amended termination theorem applied at the stream
`a\nb\nc` with `pos = 5`, whose prefix splits into three lines. -/
theorem rewind_terminates_of_two_lines_witness :
    2 ≤ (splitlines (("a\nb\nc".toList).take 5)).length ∧
    rewindTerminates ("a\nb\nc".toList) 5 :=
  ⟨by decide, rewind_terminates_of_two_lines ("a\nb\nc".toList) 5 (by decide)⟩

end Statesaver
